import Mathlib

/-!
# Verification of the per-speaker streaming transcription pipeline

Shallow embedding of `audio_processor.py` (classes `AudioProcessor` and
`TranscriptionSink`).  Audio samples are 16-bit PCM values, modelled as `Int`;
Python/numpy slices clamp exactly like `List.take`/`List.drop`.  The Vosk
recognizer is external: it is modelled as an abstract state type `ρ` together
with an interface `RecAPI` supplying the observable behaviour of
`AcceptWaveform`/`Result`/`PartialResult`/`FinalResult`.
-/

/-- Truncating average of two samples: numpy computes `(a + b) / 2` in float
and `astype(np.int16)` truncates toward zero, which on this range is exactly
`Int.div`. -/
def avg2 (a b : Int) : Int :=
  Int.tdiv (a + b) 2

/-- Average consecutive pairs, dropping a trailing unpaired element
(`pcm.reshape(-1, 2).mean(axis=1).astype(np.int16)`). -/
def pairsAvg : List Int → List Int
  | a :: b :: rest => avg2 a b :: pairsAvg rest
  | _ => []

/-- Stereo-to-mono mixdown from `TranscriptionSink.write` lines 118-121:
`pcm = np.frombuffer(...)`; `if len(pcm) % 2 != 0: pcm = pcm[:-1]`;
`mono = pcm.reshape(-1, 2).mean(axis=1).astype(np.int16)`. -/
def mixdown (pcm : List Int) : List Int :=
  let aligned := if pcm.length % 2 = 1 then pcm.dropLast else pcm
  pairsAvg aligned

/-- `chunk_size_48k = int(48000 * 3)`: 3 seconds at 48kHz mono. -/
def chunk_size_48k : Nat := 48000 * 3

/-- `min_chunk_48k = int(48000 * 1)`: 1 second at 48kHz mono. -/
def min_chunk_48k : Nat := 48000 * 1

/-- Decimation `chunk_48k[::3]`: keep every 3rd sample. -/
def every3rd : List Int → List Int
  | [] => []
  | [a] => [a]
  | [a, _] => [a]
  | a :: _ :: _ :: rest => a :: every3rd rest

/-- Buffer evolution of the drain loop (lines 125-165), with the recognizer
calls erased: returns the list of emitted 48k analysis windows
(`buffer[:self.chunk_size_48k]`, before decimation) and the final buffer.
`while len(buffer) >= self.min_chunk_48k: ...; buffer = buffer[self.chunk_size_48k // 2:]`. -/
def drainWindows (buf : List Int) : List (List Int) × List Int :=
  if min_chunk_48k ≤ buf.length then
    let res := drainWindows (buf.drop (chunk_size_48k / 2))
    (buf.take chunk_size_48k :: res.1, res.2)
  else ([], buf)
termination_by buf.length
decreasing_by simp [List.length_drop, min_chunk_48k, chunk_size_48k] at *; omega

/-- Post-drain bound (lines 167-170): `max_buffer_size = self.chunk_size_48k * 4`;
`if len(buffer) > max_buffer_size: buffer = buffer[-max_buffer_size:]`. -/
def trimBuffer (b : List Int) : List Int :=
  if chunk_size_48k * 4 < b.length then b.drop (b.length - chunk_size_48k * 4) else b

/-- Buffer-only effect of one `write` call on one speaker's stored buffer:
append the mixed-down mono samples, drain, apply the size bound. -/
def writeBuffer (buf : List Int) (pcm : List Int) : List Int :=
  trimBuffer (drainWindows (buf ++ mixdown pcm)).2

example : mixdown [1, 5, 2, 4, 7] = [3, 3] := by decide
example : mixdown [] = [] := by decide
example : mixdown [(-1), (-2)] = [-1] := by decide
example : every3rd [0, 1, 2, 3, 4, 5, 6] = [0, 3, 6] := by decide

/-! ## Python dictionaries as association lists

`d[k] = v` replaces in place when the key exists and appends otherwise;
`del d[k]` removes the entry; lookup finds the unique entry. -/

/-- `d[k]` / `d.get(k)`: the entry for key `k` (keys are unique in a Python
dict, so first occurrence suffices). -/
def dictLookup : List (String × α) → String → Option α
  | [], _ => none
  | p :: d, k => if p.1 = k then some p.2 else dictLookup d k

/-- `d[k] = v`: replace the entry in place when the key exists, append
otherwise. -/
def dictInsert : List (String × α) → String → α → List (String × α)
  | [], k, v => [(k, v)]
  | p :: d, k, v => if p.1 = k then (k, v) :: d else p :: dictInsert d k v

/-- `del d[k]`. -/
def dictErase : List (String × α) → String → List (String × α)
  | [], _ => []
  | p :: d, k => if p.1 = k then d else p :: dictErase d k

/-! ## The Discord text channel

`text_channel.send` creates a message and returns its handle;
`message.edit` replaces the content of an existing message. -/

/-- The external message sink: sent messages with their handles. -/
structure Channel where
  msgs : List (Nat × String)
  nextId : Nat
deriving Repr, DecidableEq

/-- `text_channel.send(content)`: the resulting message handle is `nextId`. -/
def Channel.send (ch : Channel) (content : String) : Channel × Nat :=
  ({ msgs := ch.msgs ++ [(ch.nextId, content)], nextId := ch.nextId + 1 }, ch.nextId)

/-- `message.edit(content=...)` on the message with handle `h`. -/
def Channel.edit (ch : Channel) (h : Nat) (content : String) : Channel :=
  { ch with msgs := ch.msgs.map (fun p => if p.1 = h then (h, content) else p) }

/-- Lookup among sent messages (handles are unique: each `send` uses a fresh
one). -/
def msgsLookup : List (Nat × String) → Nat → Option String
  | [], _ => none
  | p :: l, h => if p.1 = h then some p.2 else msgsLookup l h

/-- Content of the message with handle `h`, if it exists. -/
def Channel.content (ch : Channel) (h : Nat) : Option String :=
  msgsLookup ch.msgs h

/-- Observable transcript events: a `send` or an `edit` dispatched with
`asyncio.run_coroutine_threadsafe`. -/
inductive TEvent where
  | send (content : String)
  | edit (handle : Nat) (content : String)
deriving Repr, DecidableEq

/-! ## The recognizer interface

One `vosk.KaldiRecognizer` per speaker, abstract state type `ρ`. -/

/-- What one `AcceptWaveform` call reports: `AcceptWaveform` returned true and
`Result()` carried this text, or it returned false and `PartialResult()`
carried this text. -/
inductive RecOut where
  | fin (text : String)
  | part (text : String)
deriving Repr, DecidableEq

/-- External behaviour of a recognizer. -/
structure RecAPI (ρ : Type) where
  accept : ρ → List Int → ρ × RecOut
  finalize : ρ → String

/-- Python `str.strip()`: remove whitespace from both ends.  (Implemented
with structural recursion so that concrete inputs evaluate;
`String.trim`, being well-founded recursion, does not reduce.) -/
def pyStrip (s : String) : String :=
  String.mk (((s.data.dropWhile Char.isWhitespace).reverse.dropWhile Char.isWhitespace).reverse)

/-- `f"🎤 **{name}**: {text}"` (final messages, lines 138/143/182). -/
def fmtFinal (name text : String) : String :=
  "🎤 **" ++ name ++ "**: " ++ text

/-- `f"🎤 **{name}*: {text}"` (messages carrying an in-progress hypothesis,
lines 153/157). -/
def fmtInProgress (name text : String) : String :=
  "🎤 **" ++ name ++ "*: " ++ text

/-- Lines 132-162 of `write`: handle one recognizer verdict for one speaker.
`pending` is `self.user_messages.get(user_id)`; `ok` tells whether
`future.result(timeout=2)` succeeded when a new in-progress message is sent.
Returns the new pending handle, channel, and emitted events. -/
def handleRecOut (name : String) (pending : Option Nat) (ch : Channel)
    (out : RecOut) (ok : Bool) : Option Nat × Channel × List TEvent :=
  match out with
  | .fin t =>
    let text := pyStrip t
    if text = "" then (pending, ch, [])
    else
      match pending with
      | some h =>
        (none, ch.edit h (fmtFinal name text), [TEvent.edit h (fmtFinal name text)])
      | none =>
        let sent := ch.send (fmtFinal name text)
        (none, sent.1, [TEvent.send (fmtFinal name text)])
  | .part t =>
    let text := pyStrip t
    if text = "" ∨ ¬ 3 < text.length then (pending, ch, [])
    else
      match pending with
      | some h =>
        (some h, ch.edit h (fmtInProgress name text), [TEvent.edit h (fmtInProgress name text)])
      | none =>
        let sent := ch.send (fmtInProgress name text)
        (if ok then some sent.2 else none, sent.1, [TEvent.send (fmtInProgress name text)])

/-- Result of the drain loop for one speaker: remaining buffer, recognizer
state, pending-message handle, channel, emitted events, and (for the proofs)
the trace of waveforms fed to `AcceptWaveform`. -/
structure DrainRes (ρ : Type) where
  buf : List Int
  recSt : ρ
  pending : Option Nat
  ch : Channel
  evs : List TEvent
  fed : List (List Int)

/-- The drain loop of `write` (lines 125-165): while the buffer holds at least
`min_chunk_48k` samples, decimate the first `chunk_size_48k` samples to 16kHz,
feed them to the speaker's recognizer, handle the verdict, and drop the first
`chunk_size_48k / 2` samples.  `oks` supplies one `future.result` success flag
per iteration. -/
def drainLoop (api : RecAPI ρ) (name : String) (buf : List Int) (r : ρ)
    (pending : Option Nat) (ch : Channel) (oks : List Bool) : DrainRes ρ :=
  if min_chunk_48k ≤ buf.length then
    let chunk16 := every3rd (buf.take chunk_size_48k)
    let step := api.accept r chunk16
    let handled := handleRecOut name pending ch step.2 (oks.headD true)
    let rest := drainLoop api name (buf.drop (chunk_size_48k / 2)) step.1
      handled.1 handled.2.1 oks.tail
    { rest with evs := handled.2.2 ++ rest.evs, fed := chunk16 :: rest.fed }
  else
    { buf := buf, recSt := r, pending := pending, ch := ch, evs := [], fed := [] }
termination_by buf.length
decreasing_by simp [List.length_drop, min_chunk_48k, chunk_size_48k] at *; omega

/-- Per-speaker state of `TranscriptionSink`: the four dictionaries keyed by
`user_id`.  Message handles stand for the stored `discord.Message` objects. -/
structure SinkState (ρ : Type) where
  user_buffers : List (String × List Int)
  user_recognizers : List (String × ρ)
  user_names : List (String × String)
  user_messages : List (String × Nat)

/-- Materialize the pending-message handle back into `self.user_messages` at
the end of `write`: during the loop the code either stores a handle
(`self.user_messages[user_id] = ...`) or deletes the entry
(`del self.user_messages[user_id]`). -/
def updatePending (msgs : List (String × Nat)) (uid : String) :
    Option Nat → List (String × Nat)
  | some h => dictInsert msgs uid h
  | none => dictErase msgs uid

/-- `TranscriptionSink.write(user, data)`.  `user` is `none` for a `None`
user, otherwise `(user_id, display_name)`; `data` is `none` when `data.pcm`
is absent or empty, otherwise the PCM samples.  `newRec` stands for
`vosk.KaldiRecognizer(self.model, self.sample_rate)` when a new speaker is
seen.  Returns the updated sink state and channel plus emitted events. -/
def SinkState.write (api : RecAPI ρ) (st : SinkState ρ) (ch : Channel)
    (user : Option (String × String)) (data : Option (List Int)) (newRec : ρ)
    (oks : List Bool) : SinkState ρ × Channel × List TEvent :=
  match user with
  | none => (st, ch, [])
  | some (uid, dname) =>
    let names :=
      if (dictLookup st.user_names uid).isSome then st.user_names
      else dictInsert st.user_names uid dname
    let known := (dictLookup st.user_buffers uid).isSome
    let bufs := if known then st.user_buffers else dictInsert st.user_buffers uid []
    let recs := if known then st.user_recognizers else dictInsert st.user_recognizers uid newRec
    match data with
    | none =>
      ({ st with user_names := names, user_buffers := bufs, user_recognizers := recs }, ch, [])
    | some pcm =>
      let buffer := (dictLookup bufs uid).getD [] ++ mixdown pcm
      let name := (dictLookup names uid).getD dname
      let r := (dictLookup recs uid).getD newRec
      let res := drainLoop api name buffer r (dictLookup st.user_messages uid) ch oks
      let msgs := updatePending st.user_messages uid res.pending
      ({ user_buffers := dictInsert bufs uid (trimBuffer res.buf),
         user_recognizers := dictInsert recs uid res.recSt,
         user_names := names,
         user_messages := msgs }, res.ch, res.evs)

/-- `TranscriptionSink.cleanup` (lines 174-189): for every speaker's
recognizer, read `FinalResult()`; when the stripped text is non-empty, send a
new final message; then clear all four dictionaries. -/
def SinkState.cleanup (api : RecAPI ρ) (st : SinkState ρ) (ch : Channel) :
    SinkState ρ × Channel × List TEvent :=
  let folded := st.user_recognizers.foldl
    (fun (acc : Channel × List TEvent) p =>
      let text := pyStrip (api.finalize p.2)
      if text = "" then acc
      else
        let content := fmtFinal ((dictLookup st.user_names p.1).getD "") text
        ((acc.1.send content).1, acc.2 ++ [TEvent.send content]))
    (ch, [])
  ({ user_buffers := [], user_recognizers := [], user_names := [],
     user_messages := [] }, folded.1, folded.2)

/-! ## The lifecycle controller (`AudioProcessor`) -/

/-- Externally visible side effects of `AudioProcessor` methods. -/
inductive ProcEff where
  | loadModel (path : String)
  | listen
  | stopListening
  | cleanupSink
deriving Repr, DecidableEq

/-- `AudioProcessor` state.  The loaded Vosk model is opaque and represented
by the path it was loaded from. -/
structure Proc (ρ : Type) where
  model : Option String
  model_path : String
  sample_rate : Nat
  is_transcribing : Bool
  text_channel : Option String
  sink : Option (SinkState ρ)

/-- A fresh `TranscriptionSink` as built in `start_transcription`. -/
def emptySink (ρ : Type) : SinkState ρ :=
  { user_buffers := [], user_recognizers := [], user_names := [],
    user_messages := [] }

/-- `AudioProcessor.start_transcription` (lines 47-59): early return when
already transcribing; otherwise set the flag and channel, load the model if
not yet loaded, install a fresh sink and start listening. -/
def Proc.start_transcription (p : Proc ρ) (tc : String) : Proc ρ × List ProcEff :=
  if p.is_transcribing then (p, [])
  else
    let loadEffs := if p.model.isNone then [ProcEff.loadModel p.model_path] else []
    ({ p with is_transcribing := true,
              text_channel := some tc,
              model := if p.model.isNone then some p.model_path else p.model,
              sink := some (emptySink ρ) },
     loadEffs ++ [ProcEff.listen])

/-- `AudioProcessor.stop_transcription` (lines 61-71): early return when not
transcribing; otherwise clear the flag, clean up and drop the sink if any,
and stop listening. -/
def Proc.stop_transcription (p : Proc ρ) : Proc ρ × List ProcEff :=
  if p.is_transcribing then
    ({ p with is_transcribing := false, sink := none },
     (if p.sink.isSome then [ProcEff.cleanupSink] else []) ++ [ProcEff.stopListening])
  else (p, [])



/-! ## Helper lemmas: dictionaries -/

theorem dictLookup_insert_self (d : List (String × α)) (k : String) (v : α) :
    dictLookup (dictInsert d k v) k = some v := by
  induction d with
  | nil => simp [dictInsert, dictLookup]
  | cons p d ih =>
    by_cases hp : p.1 = k
    · simp [dictInsert, dictLookup, hp]
    · simp [dictInsert, dictLookup, hp, ih]

theorem dictLookup_insert_ne (d : List (String × α)) (k k' : String) (v : α)
    (h : ¬ k' = k) : dictLookup (dictInsert d k v) k' = dictLookup d k' := by
  have h2 : ¬ k = k' := fun e => h (Eq.symm e)
  induction d with
  | nil => simp [dictInsert, dictLookup, h2]
  | cons p d ih =>
    by_cases hp : p.1 = k
    · simp [dictInsert, dictLookup, hp, h, h2]
    · by_cases hq : p.1 = k'
      · simp [dictInsert, dictLookup, hp, hq, h, h2]
      · simp [dictInsert, dictLookup, hp, hq, h, h2, ih]

theorem dictLookup_erase_ne (d : List (String × α)) (k k' : String)
    (h : ¬ k' = k) : dictLookup (dictErase d k) k' = dictLookup d k' := by
  have h2 : ¬ k = k' := fun e => h (Eq.symm e)
  induction d with
  | nil => simp [dictErase]
  | cons p d ih =>
    by_cases hp : p.1 = k
    · simp [dictErase, dictLookup, hp, h, h2]
    · by_cases hq : p.1 = k'
      · simp [dictErase, dictLookup, hp, hq, h, h2]
      · simp [dictErase, dictLookup, hp, hq, h, h2, ih]

/-! ## Helper lemmas: channel -/

theorem msgsLookup_map_edit_self (l : List (Nat × String)) (h : Nat) (c : String) :
    msgsLookup (l.map (fun p => if p.1 = h then (h, c) else p)) h =
      (msgsLookup l h).map (fun _ => c) := by
  induction l with
  | nil => simp [msgsLookup]
  | cons p l ih =>
    by_cases hp : p.1 = h
    · simp [msgsLookup, hp]
    · simp [msgsLookup, hp, ih]

theorem Channel.content_edit_self (ch : Channel) (h : Nat) (c : String) :
    (ch.edit h c).content h = (ch.content h).map (fun _ => c) :=
  msgsLookup_map_edit_self ch.msgs h c

theorem Channel.content_edit_ne (ch : Channel) (h h' : Nat) (c : String)
    (hne : ¬ h' = h) : (ch.edit h c).content h' = ch.content h' := by
  have h2 : ¬ h = h' := fun e => hne (Eq.symm e)
  show msgsLookup (ch.msgs.map _) h' = msgsLookup ch.msgs h'
  induction ch.msgs with
  | nil => simp [msgsLookup]
  | cons p l ih =>
    by_cases hp : p.1 = h
    · simp [msgsLookup, hp, hne, h2, ih]
    · by_cases hq : p.1 = h'
      · simp [msgsLookup, hp, hq, hne, h2]
      · simp [msgsLookup, hp, hq, ih]

theorem msgsLookup_append_ne (l : List (Nat × String)) (q : Nat × String) (h' : Nat)
    (hne : ¬ h' = q.1) : msgsLookup (l ++ [q]) h' = msgsLookup l h' := by
  have h2 : ¬ q.1 = h' := fun e => hne (Eq.symm e)
  induction l with
  | nil => simp [msgsLookup, h2]
  | cons p l ih =>
    by_cases hp : p.1 = h'
    · simp [msgsLookup, hp]
    · simp [msgsLookup, hp, ih]

theorem Channel.content_send_ne (ch : Channel) (c : String) (h' : Nat)
    (hne : ¬ h' = ch.nextId) : (ch.send c).1.content h' = ch.content h' :=
  msgsLookup_append_ne ch.msgs (ch.nextId, c) h' hne

theorem Channel.edit_nextId (ch : Channel) (h : Nat) (c : String) :
    (ch.edit h c).nextId = ch.nextId := rfl

theorem Channel.send_nextId (ch : Channel) (c : String) :
    (ch.send c).1.nextId = ch.nextId + 1 := rfl

/-! ## Helper lemmas: mixdown and decimation -/

theorem pairsAvg_length : ∀ l : List Int, (pairsAvg l).length = l.length / 2
  | [] => by simp [pairsAvg]
  | [a] => by simp [pairsAvg]
  | a :: b :: rest => by
    simp [pairsAvg, pairsAvg_length rest]
    omega

theorem pairsAvg_getD : ∀ (l : List Int) (i : Nat), i < l.length / 2 →
    (pairsAvg l).getD i 0 = avg2 (l.getD (2 * i) 0) (l.getD (2 * i + 1) 0)
  | [], i, h => by simp at h
  | [a], i, h => by
    simp only [List.length_cons, List.length_nil] at h
    omega
  | a :: b :: rest, 0, h => by simp [pairsAvg]
  | a :: b :: rest, i + 1, h => by
    have hb : i < rest.length / 2 := by simp only [List.length_cons] at h; omega
    have ih := pairsAvg_getD rest i hb
    have e1 : 2 * (i + 1) = 2 * i + 1 + 1 := by omega
    have e2 : 2 * (i + 1) + 1 = 2 * i + 1 + 1 + 1 := by omega
    simp only [pairsAvg, List.getD_cons_succ, e1, e2]
    exact ih

theorem pairsAvg_dropLast_odd : ∀ l : List Int, l.length % 2 = 1 →
    pairsAvg l.dropLast = pairsAvg l
  | [], h => by simp at h
  | [a], _ => by simp [pairsAvg]
  | a :: b :: rest, h => by
    have hr : rest.length % 2 = 1 := by simp at h; omega
    have hne : rest ≠ [] := by
      intro e
      rw [e] at hr
      simp at hr
    match rest, hne with
    | c :: rest2, _ =>
      have ih := pairsAvg_dropLast_odd (c :: rest2) hr
      simp only [List.dropLast_cons₂, pairsAvg]
      rw [ih]

theorem mixdown_eq_pairsAvg (l : List Int) : mixdown l = pairsAvg l := by
  unfold mixdown
  by_cases h : l.length % 2 = 1
  · simp only [h, if_pos]
    exact pairsAvg_dropLast_odd l h
  · simp [h]

theorem every3rd_getElem? : ∀ (l : List Int) (i : Nat),
    (every3rd l)[i]? = l[3 * i]?
  | [], i => by simp [every3rd]
  | [a], 0 => by simp [every3rd]
  | [a], i + 1 => by
    have h3 : 3 ≤ 3 * (i + 1) := by omega
    simp [every3rd]
    omega
  | [a, b], 0 => by simp [every3rd]
  | [a, b], i + 1 => by
    simp [every3rd]
    omega
  | a :: b :: c :: rest, 0 => by simp [every3rd]
  | a :: b :: c :: rest, i + 1 => by
    have ih := every3rd_getElem? rest i
    have e : 3 * (i + 1) = 3 * i + 1 + 1 + 1 := by omega
    simp only [every3rd, e, List.getElem?_cons_succ]
    exact ih

/-! ## Helper lemmas: the drain loop -/

theorem drainWindows_snd_length_lt (b : List Int) :
    (drainWindows b).2.length < min_chunk_48k := by
  have key : ∀ n (b : List Int), b.length ≤ n →
      (drainWindows b).2.length < min_chunk_48k := by
    intro n
    induction n with
    | zero =>
      intro b hb
      rw [drainWindows]
      rw [if_neg (by simp only [min_chunk_48k]; omega)]
      simp only [min_chunk_48k]
      omega
    | succ n ih =>
      intro b hb
      rw [drainWindows]
      by_cases hc : min_chunk_48k ≤ b.length
      · rw [if_pos hc]
        exact ih _ (by
          rw [List.length_drop]
          simp only [min_chunk_48k] at hc
          simp only [chunk_size_48k]
          omega)
      · rw [if_neg hc]
        simp only [min_chunk_48k] at hc ⊢
        omega
  exact key b.length b le_rfl

theorem drainLoop_buf_fed {ρ : Type} (api : RecAPI ρ) (name : String)
    (buf : List Int) (r : ρ) (pending : Option Nat) (ch : Channel)
    (oks : List Bool) :
    (drainLoop api name buf r pending ch oks).buf = (drainWindows buf).2
    ∧ (drainLoop api name buf r pending ch oks).fed
        = (drainWindows buf).1.map every3rd := by
  have key : ∀ n (buf : List Int), buf.length ≤ n →
      ∀ (r : ρ) (pending : Option Nat) (ch : Channel) (oks : List Bool),
      (drainLoop api name buf r pending ch oks).buf = (drainWindows buf).2
      ∧ (drainLoop api name buf r pending ch oks).fed
          = (drainWindows buf).1.map every3rd := by
    intro n
    induction n with
    | zero =>
      intro buf hb r pending ch oks
      have hn : ¬ min_chunk_48k ≤ buf.length := by
        simp only [min_chunk_48k]; omega
      rw [drainLoop, drainWindows, if_neg hn, if_neg hn]
      simp
    | succ n ih =>
      intro buf hb r pending ch oks
      rw [drainLoop, drainWindows]
      by_cases hc : min_chunk_48k ≤ buf.length
      · rw [if_pos hc, if_pos hc]
        have hlen : (buf.drop (chunk_size_48k / 2)).length ≤ n := by
          rw [List.length_drop]
          simp only [min_chunk_48k] at hc
          simp only [chunk_size_48k]
          omega
        have hrec := ih (buf.drop (chunk_size_48k / 2)) hlen
          (api.accept r (every3rd (buf.take chunk_size_48k))).1
          (handleRecOut name pending ch
            (api.accept r (every3rd (buf.take chunk_size_48k))).2 (oks.headD true)).1
          (handleRecOut name pending ch
            (api.accept r (every3rd (buf.take chunk_size_48k))).2 (oks.headD true)).2.1
          oks.tail
        simp only [List.map_cons]
        exact ⟨hrec.1, by rw [← hrec.2]⟩
      · rw [if_neg hc, if_neg hc]
        simp
  exact key buf.length buf le_rfl r pending ch oks

theorem trimBuffer_of_le (b : List Int) (h : b.length ≤ chunk_size_48k * 4) :
    trimBuffer b = b := by
  unfold trimBuffer
  rw [if_neg (by omega)]

/-! ## Helper lemmas: cleanup and cross-speaker channel preservation -/

theorem cleanup_foldl_evs {ρ : Type} (api : RecAPI ρ) (names : List (String × String)) :
    ∀ (l : List (String × ρ)) (ch : Channel) (evs : List TEvent),
      (l.foldl (fun (acc : Channel × List TEvent) p =>
          let text := pyStrip (api.finalize p.2)
          if text = "" then acc
          else
            let content := fmtFinal ((dictLookup names p.1).getD "") text
            ((acc.1.send content).1, acc.2 ++ [TEvent.send content])) (ch, evs)).2
      = evs ++ l.filterMap (fun p =>
          let text := pyStrip (api.finalize p.2)
          if text = "" then none
          else some (TEvent.send (fmtFinal ((dictLookup names p.1).getD "") text)))
  | [], ch, evs => by simp
  | p :: l, ch, evs => by
    by_cases ht : pyStrip (api.finalize p.2) = ""
    · simp only [List.foldl_cons, List.filterMap_cons, ht, if_pos, ite_true]
      simpa using cleanup_foldl_evs api names l ch evs
    · simp only [List.foldl_cons, List.filterMap_cons, ht, ite_false, if_neg ht]
      rw [cleanup_foldl_evs api names l]
      simp

theorem handleRecOut_content (name : String) (pending : Option Nat) (ch : Channel)
    (out : RecOut) (ok : Bool) (hB : Nat)
    (hlt : hB < ch.nextId) (hp : ∀ x, pending = some x → ¬ x = hB) :
    (handleRecOut name pending ch out ok).2.1.content hB = ch.content hB
    ∧ ch.nextId ≤ (handleRecOut name pending ch out ok).2.1.nextId
    ∧ (∀ x, (handleRecOut name pending ch out ok).1 = some x → ¬ x = hB) := by
  have hnid : ¬ hB = ch.nextId := by omega
  cases out with
  | fin t =>
    by_cases ht : pyStrip t = ""
    · simp only [handleRecOut, ht, ite_true]
      exact ⟨trivial, le_rfl, hp⟩
    · cases pending with
      | some x =>
        have hx : ¬ x = hB := hp x rfl
        simp only [handleRecOut, ht, ite_false]
        refine ⟨Channel.content_edit_ne ch x hB _ (fun e => hx e.symm), le_rfl, ?_⟩
        intro y hy
        simp at hy
      | none =>
        simp only [handleRecOut, ht, ite_false]
        refine ⟨Channel.content_send_ne ch _ hB hnid, ?_, ?_⟩
        · rw [Channel.send_nextId]; omega
        · intro y hy
          simp at hy
  | part t =>
    by_cases ht : pyStrip t = "" ∨ ¬ 3 < (pyStrip t).length
    · simp only [handleRecOut, ht, ite_true]
      exact ⟨trivial, le_rfl, hp⟩
    · cases pending with
      | some x =>
        have hx : ¬ x = hB := hp x rfl
        simp only [handleRecOut, ht, ite_false]
        refine ⟨Channel.content_edit_ne ch x hB _ (fun e => hx e.symm), le_rfl, ?_⟩
        intro y hy
        simp at hy
        rw [← hy]
        exact hx
      | none =>
        simp only [handleRecOut, ht, ite_false]
        refine ⟨Channel.content_send_ne ch _ hB hnid, ?_, ?_⟩
        · rw [Channel.send_nextId]; omega
        · intro y hy
          by_cases hok : ok
          · simp [hok, Channel.send] at hy
            omega
          · simp [hok] at hy

theorem drainLoop_content {ρ : Type} (api : RecAPI ρ) (name : String) (hB : Nat)
    (buf : List Int) (r : ρ) (pending : Option Nat) (ch : Channel) (oks : List Bool)
    (hlt : hB < ch.nextId) (hp : ∀ x, pending = some x → ¬ x = hB) :
    (drainLoop api name buf r pending ch oks).ch.content hB = ch.content hB
    ∧ ch.nextId ≤ (drainLoop api name buf r pending ch oks).ch.nextId := by
  have key : ∀ n (buf : List Int), buf.length ≤ n →
      ∀ (r : ρ) (pending : Option Nat) (ch : Channel) (oks : List Bool),
      hB < ch.nextId → (∀ x, pending = some x → ¬ x = hB) →
      (drainLoop api name buf r pending ch oks).ch.content hB = ch.content hB
      ∧ ch.nextId ≤ (drainLoop api name buf r pending ch oks).ch.nextId := by
    intro n
    induction n with
    | zero =>
      intro buf hb r pending ch oks hlt hp
      have hn : ¬ min_chunk_48k ≤ buf.length := by
        simp only [min_chunk_48k]; omega
      rw [drainLoop, if_neg hn]
      exact ⟨rfl, le_rfl⟩
    | succ n ih =>
      intro buf hb r pending ch oks hlt hp
      rw [drainLoop]
      by_cases hc : min_chunk_48k ≤ buf.length
      · rw [if_pos hc]
        have hlen : (buf.drop (chunk_size_48k / 2)).length ≤ n := by
          rw [List.length_drop]
          simp only [min_chunk_48k] at hc
          simp only [chunk_size_48k]
          omega
        have hstep := handleRecOut_content name pending ch
          (api.accept r (every3rd (buf.take chunk_size_48k))).2 (oks.headD true) hB hlt hp
        have hrec := ih (buf.drop (chunk_size_48k / 2)) hlen
          (api.accept r (every3rd (buf.take chunk_size_48k))).1
          (handleRecOut name pending ch
            (api.accept r (every3rd (buf.take chunk_size_48k))).2 (oks.headD true)).1
          (handleRecOut name pending ch
            (api.accept r (every3rd (buf.take chunk_size_48k))).2 (oks.headD true)).2.1
          oks.tail
          (by omega)
          hstep.2.2
        simp only []
        constructor
        · rw [hrec.1, hstep.1]
        · calc ch.nextId ≤ _ := hstep.2.1
            _ ≤ _ := hrec.2
      · rw [if_neg hc]
        exact ⟨rfl, le_rfl⟩
  exact key buf.length buf le_rfl r pending ch oks hlt hp

/-! ## Concrete instances for examples -/

/-- A simple concrete recognizer model for closed examples: the state is the
text that `FinalResult` would report; `AcceptWaveform` always returns false
with an empty hypothesis. -/
def strRecAPI : RecAPI String :=
  { accept := fun r _ => (r, RecOut.part ""), finalize := fun r => r }

/-! ## Claims -/

/-- Claim C6: the channel mixdown produces one mono sample per complete frame
equal to the truncated average of the frame's two channel samples, a trailing
sample without a partner frame is discarded, and empty input gives empty
output. -/
theorem C6_mixdown_average :
    mixdown ([] : List Int) = []
    ∧ (∀ pcm : List Int, (mixdown pcm).length = pcm.length / 2)
    ∧ (∀ (pcm : List Int) (i : Nat), i < pcm.length / 2 →
        (mixdown pcm).getD i 0 = avg2 (pcm.getD (2 * i) 0) (pcm.getD (2 * i + 1) 0))
    ∧ (∀ (pcm : List Int), pcm.length % 2 = 0 → ∀ x : Int,
        mixdown (pcm ++ [x]) = mixdown pcm) := by
  refine ⟨by simp [mixdown, pairsAvg], ?_, ?_, ?_⟩
  · intro pcm
    rw [mixdown_eq_pairsAvg]
    exact pairsAvg_length pcm
  · intro pcm i h
    rw [mixdown_eq_pairsAvg]
    exact pairsAvg_getD pcm i h
  · intro pcm hev x
    rw [mixdown_eq_pairsAvg, mixdown_eq_pairsAvg]
    have hodd : (pcm ++ [x]).length % 2 = 1 := by
      simp [List.length_append]
      omega
    rw [← pairsAvg_dropLast_odd (pcm ++ [x]) hodd]
    rw [List.dropLast_concat]

/-- Witness for C6 at a concrete block: frame 1 of `[1, 5, 2, 4, 7]` mixes
channels 2 and 4 to their average 3 (the trailing 7 has no partner). -/
theorem C6_mixdown_average_witness :
    (mixdown [1, 5, 2, 4, 7]).getD 1 0
      = avg2 (([1, 5, 2, 4, 7] : List Int).getD (2 * 1) 0)
             (([1, 5, 2, 4, 7] : List Int).getD (2 * 1 + 1) 0) :=
  C6_mixdown_average.2.2.1 [1, 5, 2, 4, 7] 1 (by decide)

/-- Claim C7: empty or whitespace-only text (after stripping) is suppressed for
both verdicts, and an in-progress hypothesis of stripped length at most 3 is
suppressed: no message is sent or edited and the pending handle is unchanged. -/
theorem C7_suppression (name : String) (pending : Option Nat) (ch : Channel)
    (ok : Bool) (t u : String) (ht : pyStrip t = "")
    (hu : (pyStrip u).length ≤ 3) :
    handleRecOut name pending ch (RecOut.fin t) ok = (pending, ch, [])
    ∧ handleRecOut name pending ch (RecOut.part t) ok = (pending, ch, [])
    ∧ handleRecOut name pending ch (RecOut.part u) ok = (pending, ch, []) := by
  refine ⟨?_, ?_, ?_⟩
  · simp [handleRecOut, ht]
  · simp [handleRecOut, ht]
  · simp only [handleRecOut]
    rw [if_pos (Or.inr (by omega))]

/-- Witness for C7: the short hypothesis `" hi "` (stripped length 2) leaves
the state untouched and emits nothing. -/
theorem C7_suppression_witness :
    handleRecOut "Alice" (some 0) { msgs := [(0, "m")], nextId := 1 }
      (RecOut.part " hi ") true
      = (some 0, { msgs := [(0, "m")], nextId := 1 }, []) :=
  (C7_suppression "Alice" (some 0) { msgs := [(0, "m")], nextId := 1 } true
    "  " " hi " (by decide) (by decide)).2.2

/-- Claim C3: on a final verdict with non-empty stripped text, an existing
pending message is edited to the final text and the pending handle is removed;
with no pending message a new final message is sent and no handle is kept. -/
theorem C3_final_emission (name t : String) (ch : Channel) (ok : Bool)
    (h : ¬ pyStrip t = "") :
    (∀ hid : Nat,
      handleRecOut name (some hid) ch (RecOut.fin t) ok
        = (none, ch.edit hid (fmtFinal name (pyStrip t)),
           [TEvent.edit hid (fmtFinal name (pyStrip t))])
      ∧ (ch.edit hid (fmtFinal name (pyStrip t))).content hid
          = (ch.content hid).map (fun _ => fmtFinal name (pyStrip t)))
    ∧ handleRecOut name none ch (RecOut.fin t) ok
        = (none, (ch.send (fmtFinal name (pyStrip t))).1,
           [TEvent.send (fmtFinal name (pyStrip t))])
    ∧ (ch.send (fmtFinal name (pyStrip t))).1.msgs
        = ch.msgs ++ [(ch.nextId, fmtFinal name (pyStrip t))] := by
  refine ⟨fun hid => ⟨?_, Channel.content_edit_self ch hid _⟩, ?_, rfl⟩
  · simp [handleRecOut, h]
  · simp [handleRecOut, h]

/-- Witness for C3: a pending message with handle 0 is upgraded by edit and
the handle is dropped. -/
theorem C3_final_emission_witness :
    handleRecOut "A" (some 0) { msgs := [(0, "x")], nextId := 1 }
      (RecOut.fin " hello ") true
      = (none,
         Channel.edit { msgs := [(0, "x")], nextId := 1 } 0
           (fmtFinal "A" (pyStrip " hello ")),
         [TEvent.edit 0 (fmtFinal "A" (pyStrip " hello "))]) :=
  ((C3_final_emission "A" " hello " { msgs := [(0, "x")], nextId := 1 } true
    (by decide)).1 0).1

/-- Claim C4: each speaker carries at most one pending handle (an `Option` in
the state); a non-suppressed in-progress hypothesis with a pending message
edits that message in place — same handle, same message count, content
replaced, no send — and a non-empty final verdict clears the handle. -/
theorem C4_single_pending (name t u : String) (ch : Channel) (ok : Bool)
    (hid : Nat) (ht : ¬ pyStrip t = "") (hu : 3 < (pyStrip u).length) :
    (handleRecOut name (some hid) ch (RecOut.part u) ok).1 = some hid
    ∧ (handleRecOut name (some hid) ch (RecOut.part u) ok).2.1.msgs.length
        = ch.msgs.length
    ∧ (handleRecOut name (some hid) ch (RecOut.part u) ok).2.1.content hid
        = (ch.content hid).map (fun _ => fmtInProgress name (pyStrip u))
    ∧ (handleRecOut name (some hid) ch (RecOut.part u) ok).2.2
        = [TEvent.edit hid (fmtInProgress name (pyStrip u))]
    ∧ (handleRecOut name (some hid) ch (RecOut.fin t) ok).1 = none := by
  have hne : ¬ pyStrip u = "" := by
    intro e
    rw [e] at hu
    simp at hu
  have hcond : ¬ (pyStrip u = "" ∨ ¬ 3 < (pyStrip u).length) := by
    push_neg
    exact ⟨hne, hu⟩
  have hle : ¬ (pyStrip u).length ≤ 3 := by omega
  refine ⟨?_, ?_, ?_, ?_, ?_⟩
  · simp [handleRecOut, hne, hle]
  · simp [handleRecOut, hne, hle, Channel.edit]
  · simp only [handleRecOut, hcond, ite_false]
    exact Channel.content_edit_self ch hid _
  · simp [handleRecOut, hne, hle]
  · simp [handleRecOut, ht]

/-- Witness for C4: the hypothesis `" hello "` edits pending message 2 in
place. -/
theorem C4_single_pending_witness :
    (handleRecOut "Bob" (some 2) { msgs := [(2, "p")], nextId := 3 }
      (RecOut.part " hello ") true).2.2
      = [TEvent.edit 2 (fmtInProgress "Bob" (pyStrip " hello "))] :=
  (C4_single_pending "Bob" "done" " hello " { msgs := [(2, "p")], nextId := 3 }
    true 2 (by decide) (by decide)).2.2.2.1

/-- Claim C8: starting while already transcribing is a no-op (no state change,
no effects — in particular no model load and no new sink), and stopping while
not transcribing is a no-op (no cleanup, no effects). -/
theorem C8_idempotent_lifecycle {ρ : Type} (p q : Proc ρ) (tc : String)
    (hp : p.is_transcribing = true) (hq : q.is_transcribing = false) :
    p.start_transcription tc = (p, []) ∧ q.stop_transcription = (q, []) := by
  constructor
  · simp [Proc.start_transcription, hp]
  · simp [Proc.stop_transcription, hq]

/-- Witness for C8 on concrete processor states. -/
theorem C8_idempotent_lifecycle_witness :
    Proc.start_transcription (ρ := String)
      { model := some "m", model_path := "m", sample_rate := 16000,
        is_transcribing := true, text_channel := none, sink := none } "chan"
      = ({ model := some "m", model_path := "m", sample_rate := 16000,
           is_transcribing := true, text_channel := none, sink := none }, [])
    ∧ Proc.stop_transcription (ρ := String)
      { model := none, model_path := "m", sample_rate := 16000,
        is_transcribing := false, text_channel := none, sink := none }
      = ({ model := none, model_path := "m", sample_rate := 16000,
           is_transcribing := false, text_channel := none, sink := none }, []) :=
  C8_idempotent_lifecycle _ _ "chan" rfl rfl

/-- After draining, the trim bound is already satisfied, so `trimBuffer` is the
identity there and the remaining length is below the minimum chunk. -/
theorem trim_drain_length_lt (b : List Int) :
    (trimBuffer (drainWindows b).2).length < min_chunk_48k
    ∧ trimBuffer (drainWindows b).2 = (drainWindows b).2 := by
  have h := drainWindows_snd_length_lt b
  have hle : (drainWindows b).2.length ≤ chunk_size_48k * 4 := by
    simp only [min_chunk_48k] at h
    simp only [chunk_size_48k]
    omega
  rw [trimBuffer_of_le _ hle]
  exact ⟨h, rfl⟩

/-- Claim C5: the stored buffer never exceeds the `4 × chunk_size_48k` cap
(8 seconds); when the cap check fires it trims from the front, keeping the
newest samples; the bound is preserved under arbitrarily long input. -/
theorem C5_buffer_bound :
    (∀ buf pcm : List Int, (writeBuffer buf pcm).length ≤ chunk_size_48k * 4)
    ∧ (∀ b : List Int, chunk_size_48k * 4 < b.length →
        trimBuffer b = b.drop (b.length - chunk_size_48k * 4)
        ∧ (trimBuffer b).length = chunk_size_48k * 4)
    ∧ (∀ (pcms : List (List Int)) (buf : List Int),
        buf.length ≤ chunk_size_48k * 4 →
        (pcms.foldl writeBuffer buf).length ≤ chunk_size_48k * 4) := by
  have h1 : ∀ buf pcm : List Int, (writeBuffer buf pcm).length ≤ chunk_size_48k * 4 := by
    intro buf pcm
    unfold writeBuffer
    have h := (trim_drain_length_lt (buf ++ mixdown pcm)).1
    simp only [min_chunk_48k] at h
    simp only [chunk_size_48k]
    omega
  refine ⟨h1, ?_, ?_⟩
  · intro b hb
    unfold trimBuffer
    rw [if_pos hb]
    exact ⟨rfl, by rw [List.length_drop]; omega⟩
  · intro pcms
    induction pcms with
    | nil => intro buf hb; simpa using hb
    | cons p pcms ih =>
      intro buf _
      rw [List.foldl_cons]
      exact ih (writeBuffer buf p) (h1 buf p)

/-- Witness for C5: one write starting from the empty buffer respects the cap. -/
theorem C5_buffer_bound_witness :
    (([[1, 2, 3, 4]] : List (List Int)).foldl writeBuffer []).length
      ≤ chunk_size_48k * 4 :=
  C5_buffer_bound.2.2 [[1, 2, 3, 4]] [] (by simp)

/-- Claim C10: the drain loop only stops once fewer than `min_chunk_48k`
samples remain, so after `write` the stored buffer of the written speaker
always holds strictly fewer than 48000 samples, and the `4 × chunk_size_48k`
front-trim branch is the identity on every post-drain buffer (it never fires);
a `write` without usable PCM stores the previous buffer (or a fresh empty
one). -/
theorem C10_post_write_buffer {ρ : Type} (api : RecAPI ρ) (st : SinkState ρ)
    (ch : Channel) (uid dname : String) (pcm : List Int) (newRec : ρ)
    (oks : List Bool) :
    (∀ b : List Int, (drainWindows b).2.length < min_chunk_48k
       ∧ trimBuffer (drainWindows b).2 = (drainWindows b).2)
    ∧ (∃ b' : List Int,
        dictLookup (SinkState.write api st ch (some (uid, dname)) (some pcm)
            newRec oks).1.user_buffers uid = some b'
        ∧ b'.length < min_chunk_48k)
    ∧ dictLookup (SinkState.write api st ch (some (uid, dname)) none
          newRec oks).1.user_buffers uid
        = some ((dictLookup st.user_buffers uid).getD []) := by
  refine ⟨fun b => ⟨drainWindows_snd_length_lt b, (trim_drain_length_lt b).2⟩, ?_, ?_⟩
  · simp only [SinkState.write]
    refine ⟨_, dictLookup_insert_self _ _ _, ?_⟩
    rw [(drainLoop_buf_fed api _ _ _ _ _ _).1]
    exact (trim_drain_length_lt _).1
  · simp only [SinkState.write]
    by_cases hk : (dictLookup st.user_buffers uid).isSome = true
    · obtain ⟨b, hb⟩ := Option.isSome_iff_exists.mp hk
      simp [hk, hb]
    · simp only [hk, ite_false, Bool.false_eq_true, if_false]
      rw [dictLookup_insert_self]
      have hnone : dictLookup st.user_buffers uid = none :=
        Option.not_isSome_iff_eq_none.mp (by simpa using hk)
      rw [hnone]
      rfl

/-- Counterexample to C1 as stated: with exactly `min_chunk_48k` (48000)
buffered samples the loop condition holds, yet the emitted analysis window is
`buffer[:144000]` of the 48000 available samples — length 48000, not the
claimed fixed 144000 — and the advance `buffer[72000:]` empties the buffer,
an advance of 48000 rather than 72000. -/
theorem C1_short_window_counterexample :
    (drainWindows (List.replicate min_chunk_48k (0 : Int))).1.map List.length
      = [min_chunk_48k]
    ∧ ¬ min_chunk_48k = chunk_size_48k
    ∧ (drainWindows (List.replicate min_chunk_48k (0 : Int))).2 = [] := by
  have h1 : min_chunk_48k ≤ (List.replicate min_chunk_48k (0 : Int)).length := by
    rw [List.length_replicate]
  have h2 : (List.replicate min_chunk_48k (0 : Int)).drop (chunk_size_48k / 2) = [] := by
    rw [List.drop_replicate]
    norm_num [min_chunk_48k, chunk_size_48k]
  have h3 : drainWindows ([] : List Int) = ([], []) := by
    rw [drainWindows]
    rw [if_neg (by simp [min_chunk_48k])]
  have h4 : (List.replicate min_chunk_48k (0 : Int)).take chunk_size_48k
      = List.replicate min_chunk_48k 0 := by
    rw [List.take_replicate]
    congr 1
  rw [drainWindows, if_pos h1, h2, h3, h4]
  refine ⟨?_, by simp [min_chunk_48k, chunk_size_48k], rfl⟩
  simp [List.length_replicate]

/-- Claim C1 (amended): while at least `min_chunk_48k` (1 s) samples are
buffered, each iteration emits one window consisting of the first
`min(buffered, chunk_size_48k)` samples — exactly `chunk_size_48k` (144000)
only when that many are buffered — downsampled by keeping every 3rd sample,
then shrinks the buffer to `buffered - 72000` (an advance of exactly half the
target window length only when at least 72000 samples are buffered); the
decimated windows are exactly what the per-speaker drain loop feeds to
`AcceptWaveform`. -/
theorem C1_drain_step (buf : List Int) (h : min_chunk_48k ≤ buf.length) :
    (drainWindows buf).1
      = buf.take chunk_size_48k :: (drainWindows (buf.drop (chunk_size_48k / 2))).1
    ∧ (buf.take chunk_size_48k).length = min chunk_size_48k buf.length
    ∧ (buf.drop (chunk_size_48k / 2)).length = buf.length - chunk_size_48k / 2
    ∧ (∀ i : Nat, (every3rd (buf.take chunk_size_48k))[i]?
        = (buf.take chunk_size_48k)[3 * i]?)
    ∧ (∀ (ρ : Type) (api : RecAPI ρ) (name : String) (r : ρ)
        (pending : Option Nat) (ch : Channel) (oks : List Bool),
        (drainLoop api name buf r pending ch oks).fed
          = (drainWindows buf).1.map every3rd) := by
  refine ⟨?_, List.length_take _ _, List.length_drop _ _,
    every3rd_getElem? _, ?_⟩
  · rw [drainWindows, if_pos h]
  · intro ρ api name r pending ch oks
    exact (drainLoop_buf_fed api name buf r pending ch oks).2

/-- Witness for C1 at a full 3-second buffer: the emitted window length is
`min chunk_size_48k buffered`. -/
theorem C1_drain_step_witness :
    ((List.replicate chunk_size_48k (0 : Int)).take chunk_size_48k).length
      = min chunk_size_48k (List.replicate chunk_size_48k (0 : Int)).length :=
  (C1_drain_step (List.replicate chunk_size_48k 0)
    (by rw [List.length_replicate]; simp [min_chunk_48k, chunk_size_48k])).2.1


/-- Concrete sink state for the stop-time example: one speaker `"u"` named
`"Alice"` with a pending message (handle 0) and a recognizer whose
`FinalResult` text will be `"hello"`. -/
def stopStateEx : SinkState String :=
  { user_buffers := [("u", [])]
    user_recognizers := [("u", "hello")]
    user_names := [("u", "Alice")]
    user_messages := [("u", 0)] }

/-- Concrete channel for the stop-time example: the pending message with
handle 0 is displayed with content `"old"`. -/
def stopChanEx : Channel :=
  { msgs := [(0, "old")], nextId := 1 }

/-- Counterexample to C2 as stated: at stop time, speaker `"u"` has a pending
message (handle 0) and a recognizer whose `FinalResult` text is non-empty, yet
`cleanup` sends a brand-new message instead of upgrading the pending message
by edit: the emitted event is a `send`, and the pending message's content is
left untouched. -/
theorem C2_cleanup_counterexample :
    dictLookup stopStateEx.user_messages "u" = some 0
    ∧ (SinkState.cleanup strRecAPI stopStateEx stopChanEx).2.2
        = [TEvent.send (fmtFinal "Alice" "hello")]
    ∧ (SinkState.cleanup strRecAPI stopStateEx stopChanEx).2.1.content 0
        = some "old" := by
  refine ⟨by decide, by decide, by decide⟩

/-- Claim C2 (amended): on stop, `cleanup` reads every speaker's
`FinalResult` in registration order and, whenever the stripped text is
non-empty, sends a brand-new final message for that speaker (it never edits a
pending message, even when one exists); afterwards all four per-speaker
dictionaries are empty. -/
theorem C2_cleanup_flush {ρ : Type} (api : RecAPI ρ) (st : SinkState ρ)
    (ch : Channel) :
    (SinkState.cleanup api st ch).1.user_buffers = []
    ∧ (SinkState.cleanup api st ch).1.user_recognizers = []
    ∧ (SinkState.cleanup api st ch).1.user_names = []
    ∧ (SinkState.cleanup api st ch).1.user_messages = []
    ∧ (SinkState.cleanup api st ch).2.2
        = st.user_recognizers.filterMap (fun p =>
            let text := pyStrip (api.finalize p.2)
            if text = "" then none
            else some (TEvent.send
              (fmtFinal ((dictLookup st.user_names p.1).getD "") text)))
    ∧ (∀ e ∈ (SinkState.cleanup api st ch).2.2, ∀ hid c, ¬ e = TEvent.edit hid c) := by
  have hevs : (SinkState.cleanup api st ch).2.2
      = st.user_recognizers.filterMap (fun p =>
          let text := pyStrip (api.finalize p.2)
          if text = "" then none
          else some (TEvent.send
            (fmtFinal ((dictLookup st.user_names p.1).getD "") text))) := by
    unfold SinkState.cleanup
    simpa using cleanup_foldl_evs api st.user_names st.user_recognizers ch []
  refine ⟨rfl, rfl, rfl, rfl, hevs, ?_⟩
  intro e he hid c
  rw [hevs] at he
  obtain ⟨p, _, hf⟩ := List.mem_filterMap.mp he
  by_cases ht : pyStrip (api.finalize p.2) = ""
  · simp [ht] at hf
  · simp only [ht, ite_false] at hf
    intro hcontra
    rw [hcontra] at hf
    simp at hf

/-- Updating one speaker's pending handle leaves every other speaker's entry
untouched. -/
theorem dictLookup_updatePending_ne (msgs : List (String × Nat)) (A B : String)
    (hAB : ¬ B = A) (o : Option Nat) :
    dictLookup (updatePending msgs A o) B = dictLookup msgs B := by
  cases o with
  | none => exact dictLookup_erase_ne msgs A B hAB
  | some h => exact dictLookup_insert_ne msgs A B h hAB

/-- Claim C9: a `write` for speaker `A` leaves speaker `B`'s buffer,
recognizer, recorded name and pending handle unchanged, and never touches
`B`'s displayed message: for any handle `hB` that `B`'s pending entry refers
to (a really sent message, so `hB < nextId`, and not aliased by `A`'s pending
entry), its content is the same after the call. -/
theorem C9_speaker_isolation {ρ : Type} (api : RecAPI ρ) (st : SinkState ρ)
    (ch : Channel) (A dname B : String) (data : Option (List Int)) (newRec : ρ)
    (oks : List Bool) (hAB : ¬ B = A) :
    dictLookup (SinkState.write api st ch (some (A, dname)) data
        newRec oks).1.user_buffers B = dictLookup st.user_buffers B
    ∧ dictLookup (SinkState.write api st ch (some (A, dname)) data
        newRec oks).1.user_recognizers B = dictLookup st.user_recognizers B
    ∧ dictLookup (SinkState.write api st ch (some (A, dname)) data
        newRec oks).1.user_names B = dictLookup st.user_names B
    ∧ dictLookup (SinkState.write api st ch (some (A, dname)) data
        newRec oks).1.user_messages B = dictLookup st.user_messages B
    ∧ (∀ hB : Nat, dictLookup st.user_messages B = some hB → hB < ch.nextId →
        ¬ dictLookup st.user_messages A = some hB →
        (SinkState.write api st ch (some (A, dname)) data
          newRec oks).2.1.content hB = ch.content hB) := by
  cases data with
  | none =>
    simp only [SinkState.write]
    refine ⟨?_, ?_, ?_, trivial, fun hB _ _ _ => trivial⟩
    · by_cases hk : (dictLookup st.user_buffers A).isSome = true
      · simp [hk]
      · simp [hk, dictLookup_insert_ne st.user_buffers A B _ hAB]
    · by_cases hk : (dictLookup st.user_buffers A).isSome = true
      · simp [hk]
      · simp [hk, dictLookup_insert_ne st.user_recognizers A B newRec hAB]
    · by_cases hk : (dictLookup st.user_names A).isSome = true
      · simp [hk]
      · simp [hk, dictLookup_insert_ne st.user_names A B dname hAB]
  | some pcm =>
    simp only [SinkState.write]
    refine ⟨?_, ?_, ?_, ?_, ?_⟩
    · rw [dictLookup_insert_ne _ A B _ hAB]
      by_cases hk : (dictLookup st.user_buffers A).isSome = true
      · simp [hk]
      · simp [hk, dictLookup_insert_ne st.user_buffers A B _ hAB]
    · rw [dictLookup_insert_ne _ A B _ hAB]
      by_cases hk : (dictLookup st.user_buffers A).isSome = true
      · simp [hk]
      · simp [hk, dictLookup_insert_ne st.user_recognizers A B newRec hAB]
    · by_cases hk : (dictLookup st.user_names A).isSome = true
      · simp [hk]
      · simp [hk, dictLookup_insert_ne st.user_names A B dname hAB]
    · exact dictLookup_updatePending_ne st.user_messages A B hAB _
    · intro hB hlk hlt hA
      refine (drainLoop_content api _ hB _ _ _ ch oks hlt ?_).1
      intro x hx e
      rw [e] at hx
      exact hA hx

/-- Witness for C9: a write attributed to `"a"` does not disturb the state
recorded for `"b"`, nor the content of `"b"`'s pending message. -/
theorem C9_speaker_isolation_witness :
    dictLookup (SinkState.write strRecAPI stopStateEx stopChanEx
        (some ("a", "Aye")) (some [7, 9]) "" []).1.user_buffers "u"
      = dictLookup stopStateEx.user_buffers "u"
    ∧ (SinkState.write strRecAPI stopStateEx stopChanEx
        (some ("a", "Aye")) (some [7, 9]) "" []).2.1.content 0
      = stopChanEx.content 0 :=
  ⟨(C9_speaker_isolation strRecAPI stopStateEx stopChanEx "a" "Aye" "u"
      (some [7, 9]) "" [] (by decide)).1,
   (C9_speaker_isolation strRecAPI stopStateEx stopChanEx "a" "Aye" "u"
      (some [7, 9]) "" [] (by decide)).2.2.2.2 0 (by decide) (by decide) (by decide)⟩

/-- Witness for C2: the event emitted by the concrete stop-time cleanup is a
`send`, not an edit of the pending message. -/
theorem C2_cleanup_flush_witness :
    ¬ TEvent.send (fmtFinal "Alice" "hello") = TEvent.edit 0 "x" :=
  (C2_cleanup_flush strRecAPI stopStateEx stopChanEx).2.2.2.2.2
    (TEvent.send (fmtFinal "Alice" "hello")) (by decide) 0 "x"
